import Mathlib

/-!
Verification of the memo8 CLI codebase-indexing component
(src/commands/codebase.ts, src/lib/api.ts, src/lib/config.ts).

The TypeScript source is embedded shallowly: the batch-construction loop,
the directory walk, the file-admission loop, the submission loop with its
413 handler, and the API-client response interceptor become Lean functions
over explicit inputs (the filesystem tree, the server behaviour, the global
config).  Library behaviour that the repository merely calls (SHA-256,
UTF-8 decoding, the ignore-pattern matcher) is abstracted as function
parameters, so every theorem below is quantified over those parameters.
-/

namespace Memo8

/-- Constant MAX_BATCH_BYTES from src/commands/codebase.ts (4 MiB per batch payload). -/
def MAX_BATCH_BYTES : Nat := 4 * 1024 * 1024

/-- Constant MAX_FILE_SIZE from src/commands/codebase.ts (512 KiB walk-time file cap). -/
def MAX_FILE_SIZE : Nat := 512 * 1024

/-- Interface FileEntry from src/commands/codebase.ts: relative path, hex
content hash, and full text content of one admitted file. -/
structure FileEntry where
  file_path : String
  file_hash : String
  content : String
deriving DecidableEq

/-- Estimated wire size of one entry, from the batch loop of codebase.ts:
Buffer.byteLength(entry.content) + entry.file_path.length +
entry.file_hash.length + 100. -/
def entrySize (e : FileEntry) : Nat :=
  e.content.utf8ByteSize + e.file_path.length + e.file_hash.length + 100

/-- Total estimated size of a batch: the sum of the estimated entry sizes. -/
def batchSize (b : List FileEntry) : Nat :=
  (b.map entrySize).sum

/-- Body of the batch-construction loop of codebase.ts.  Arguments are the
remaining entries, the running batch, and the running size counter; the
running batch is closed when it is non-empty and adding the next entry
would push the counter over MAX_BATCH_BYTES, and the final non-empty batch
is flushed at the end. -/
def buildBatchesAux : List FileEntry → List FileEntry → Nat → List (List FileEntry)
  | [], cur, _ => if cur.isEmpty then [] else [cur]
  | e :: rest, cur, size =>
    let s := entrySize e
    if 0 < cur.length ∧ MAX_BATCH_BYTES < size + s then
      cur :: buildBatchesAux rest [e] s
    else
      buildBatchesAux rest (cur ++ [e]) (size + s)

/-- The batch construction of codebase.ts, started from an empty running
batch and a zero size counter. -/
def buildBatches (es : List FileEntry) : List (List FileEntry) :=
  buildBatchesAux es [] 0

/-- One node of the filesystem tree seen by walkDirectory.  A file carries
its stat size and the bytes a later readFileSync would return (none models
a file whose read fails and is skipped by the admission loop); a directory
carries its readdirSync listing, with none modelling a directory whose
listing throws (for example a permission error). -/
inductive FsEntry where
  | file (name : String) (size : Nat) (bytes : Option (List Nat))
  | dir (name : String) (listing : Option (List FsEntry))

/-- A file selected by the walk: its path relative to the scan root,
its stat size, and the bytes the admission stage will read.  The source
walk returns absolute paths and the admission loop re-reads each file and
recomputes the relative path; over one unchanged tree this is the same
data, so the model carries it through the walk. -/
structure FileRec where
  rel : String
  size : Nat
  bytes : Option (List Nat)
deriving DecidableEq

/-- Relative path of a child entry: path.relative(baseDir, path.join(dir,
name)) for a directory dir that itself lies at relative path pfx under the
root (empty pfx means the root itself). -/
def joinRel (pfx name : String) : String :=
  if pfx = "" then name else pfx ++ "/" ++ name

/-- Function walkDirectory from codebase.ts over the tree model, with the
ignore-library matcher abstracted as the predicate ig.  For each entry the
relative path is tested against ig; a matching entry is skipped entirely;
a directory is additionally tested with a trailing slash before being
descended into; a file is kept when its size is at most MAX_FILE_SIZE.
readdirSync throwing on an unreadable listing is modelled as Except.error:
the source has no try/catch around readdirSync or the recursive call, so
the exception propagates. -/
def walkList (ig : String → Bool) (pfx : String) : List FsEntry → Except String (List FileRec)
  | [] => .ok []
  | .file name size bytes :: rest =>
    let rel := joinRel pfx name
    if ig rel then walkList ig pfx rest
    else if size ≤ MAX_FILE_SIZE then
      match walkList ig pfx rest with
      | .ok fs => .ok (⟨rel, size, bytes⟩ :: fs)
      | .error e => .error e
    else walkList ig pfx rest
  | .dir name listing :: rest =>
    let rel := joinRel pfx name
    if ig rel then walkList ig pfx rest
    else if ig (rel ++ "/") then walkList ig pfx rest
    else
      match listing with
      | none => .error rel
      | some children =>
        match walkList ig rel children with
        | .error e => .error e
        | .ok sub =>
          match walkList ig pfx rest with
          | .error e => .error e
          | .ok rst => .ok (sub ++ rst)

/-- Reference characterisation of the walk for claim C7, written from the
specification: the files kept are exactly those whose relative path is not
ignored and whose size is at most MAX_FILE_SIZE, where every ancestor
directory is not ignored (tested bare and with a trailing slash);
an ignored directory contributes nothing, whatever lies beneath it. -/
def specWalk (ig : String → Bool) (pfx : String) : List FsEntry → List FileRec
  | [] => []
  | .file name size bytes :: rest =>
    let rel := joinRel pfx name
    (if ig rel = false ∧ size ≤ MAX_FILE_SIZE then [⟨rel, size, bytes⟩] else []) ++
      specWalk ig pfx rest
  | .dir name listing :: rest =>
    let rel := joinRel pfx name
    (if ig rel = false ∧ ig (rel ++ "/") = false then
      match listing with
      | some children => specWalk ig rel children
      | none => []
    else []) ++ specWalk ig pfx rest

/-- The file-reading and admission loop of the codebase index action
(codebase.ts): for every walked file, a failed read is skipped, a file
whose first 8 KiB of bytes contains a null byte is skipped, a file whose
decoded content trims to the empty string is skipped, and every other
file becomes a FileEntry of its relative path, the hex SHA-256 digest of
its decoded content, and that content.  The crypto hash and Node UTF-8
decoding are library calls, abstracted as sha256hex and decodeUtf8. -/
def admitAll (sha256hex : String → String) (decodeUtf8 : List Nat → String) :
    List FileRec → List FileEntry
  | [] => []
  | f :: rest =>
    match f.bytes with
    | none => admitAll sha256hex decodeUtf8 rest
    | some buf =>
      if (buf.take 8192).contains 0 then admitAll sha256hex decodeUtf8 rest
      else
        let content := decodeUtf8 buf
        if content.trim = "" then admitAll sha256hex decodeUtf8 rest
        else ⟨f.rel, sha256hex content, content⟩ :: admitAll sha256hex decodeUtf8 rest

/-- The walk-plus-admission pipeline of the index action: walk the tree
from the root, then run the admission loop over the selected files. -/
def scanPipeline (ig : String → Bool) (sha256hex : String → String)
    (decodeUtf8 : List Nat → String) (root : List FsEntry) :
    Except String (List FileEntry) :=
  match walkList ig "" root with
  | .error e => .error e
  | .ok recs => .ok (admitAll sha256hex decodeUtf8 recs)

/-- Interface User from src/types/index.ts. -/
structure User where
  id : Nat
  name : String
  email : String
deriving DecidableEq

/-- Interface GlobalConfig from src/types/index.ts, as manipulated by
src/lib/config.ts (apiUrl, token, user, teamId, all optional). -/
structure GlobalConfig where
  apiUrl : Option String
  token : Option String
  user : Option User
  teamId : Option Nat
deriving DecidableEq

/-- Function clearAuth from src/lib/config.ts: load the global config,
delete the token, user and teamId keys, and save it back.  The apiUrl key
is untouched. -/
def clearAuth (cfg : GlobalConfig) : GlobalConfig :=
  { cfg with token := none, user := none, teamId := none }

/-- The error value the api-client response interceptor throws: class
ApiError of src/lib/api.ts (fields message and status) or its subclass
ValidationError (status 422, carrying the validation message).  Neither
class declares a response property. -/
inductive ThrownError where
  | apiError (message : String) (status : Nat)
  | validationError (message : String)
deriving DecidableEq

/-- The value of (err as \x7b response?: \x7b status?: number \x7d \x7d)?.response?.status
read by the 413 handler of codebase.ts when err is an error thrown by the
api client: every such error is an ApiError (or ValidationError), which
has a status field but no response property, so the optional chain always
evaluates to undefined. -/
def thrownResponseStatus (_ : ThrownError) : Option Nat := none

/-- The axios error observed by the response interceptor of
src/lib/api.ts: error.code, error.response?.status,
error.response?.data?.message, and error.message. -/
structure AxiosErr where
  code : Option String
  respStatus : Option Nat
  dataMessage : Option String
  errMessage : String
deriving DecidableEq

/-- JavaScript a || b for an optionally-present string a: an absent or
empty string falls through to b. -/
def jsStringOr (a : Option String) (b : String) : String :=
  match a with
  | some s => if s = "" then b else s
  | none => b

/-- Message of the 401 branch of the response interceptor. -/
def sessionExpiredMessage : String :=
  "Session expired. Please login again with: memo8 login"

/-- Message of the connection-failure branch of the response interceptor. -/
def cannotConnectMessage : String :=
  "Cannot connect to API. Is the server running?"

/-- The error path of the response interceptor of src/lib/api.ts, acting
on the persisted global config: ECONNREFUSED and ENOTFOUND become a
status-0 ApiError; a 401 response clears the persisted auth state and
becomes the session-expired ApiError; a 422 response becomes a
ValidationError; every other failure becomes an ApiError from
data?.message || error.message || the generic message, with status
status || 0.  The returned pair is the config after the interceptor ran
and the error it throws. -/
def interceptErr (e : AxiosErr) (cfg : GlobalConfig) : GlobalConfig × ThrownError :=
  if e.code = some "ECONNREFUSED" ∨ e.code = some "ENOTFOUND" then
    (cfg, .apiError cannotConnectMessage 0)
  else if e.respStatus = some 401 then
    (clearAuth cfg, .apiError sessionExpiredMessage 401)
  else if e.respStatus = some 422 then
    (cfg, .validationError (jsStringOr e.dataMessage "Validation failed"))
  else
    (cfg, .apiError
      (jsStringOr e.dataMessage (jsStringOr (some e.errMessage) "An unexpected error occurred"))
      (e.respStatus.getD 0))

/-- Outcome of one HTTP POST as the axios layer reports it: a 2xx
response, or the axios error handed to the response interceptor.  The
remote server is modelled as a function from the submitted payload to
this outcome. -/
inductive RawResult where
  | ok
  | err (e : AxiosErr)
deriving DecidableEq

/-- One iteration of the submission loop of the codebase index action
(codebase.ts): POST the batch; on failure, when the caught error has
response status 413 and the batch has more than one entry, split the
batch at Math.ceil(length / 2), POST the first half then the second half
(each without its own handler), otherwise rethrow.  Returns the list of
payloads POSTed, the global config after any interceptor runs, and the
error that propagates, if any. -/
def submitWithSplit (server : List FileEntry → RawResult) (cfg : GlobalConfig)
    (batch : List FileEntry) :
    List (List FileEntry) × GlobalConfig × Option ThrownError :=
  match server batch with
  | .ok => ([batch], cfg, none)
  | .err e =>
    let cfg₁ := (interceptErr e cfg).1
    let err := (interceptErr e cfg).2
    if thrownResponseStatus err = some 413 ∧ 1 < batch.length then
      let mid := (batch.length + 1) / 2
      let half1 := batch.take mid
      let half2 := batch.drop mid
      match server half1 with
      | .ok =>
        match server half2 with
        | .ok => ([batch, half1, half2], cfg₁, none)
        | .err e2 =>
          ([batch, half1, half2], (interceptErr e2 cfg₁).1, some (interceptErr e2 cfg₁).2)
      | .err e1 =>
        ([batch, half1], (interceptErr e1 cfg₁).1, some (interceptErr e1 cfg₁).2)
    else ([batch], cfg₁, some err)

/-- The full submission loop of the codebase index action: submit each
batch in order, stopping at the first propagated error.  Returns the
ordered list of all payloads POSTed, the final global config, and the
propagated error, if any. -/
def runBatches (server : List FileEntry → RawResult) :
    GlobalConfig → List (List FileEntry) →
    List (List FileEntry) × GlobalConfig × Option ThrownError
  | cfg, [] => ([], cfg, none)
  | cfg, b :: rest =>
    let step := submitWithSplit server cfg b
    match step.2.2 with
    | some e => (step.1, step.2.1, some e)
    | none =>
      let next := runBatches server step.2.1 rest
      (step.1 ++ next.1, next.2.1, next.2.2)

/-- Demonstration entry used by concrete witnesses. -/
def wEntryA : FileEntry := ⟨"a.txt", "hashA", "hello"⟩

/-- Demonstration entry used by concrete witnesses. -/
def wEntryB : FileEntry := ⟨"b.txt", "hashB", "world!"⟩

/-- Text content of MAX_BATCH_BYTES ASCII bytes, used to build an entry
whose estimated size alone exceeds the ceiling. -/
def bigContent : String := String.mk (List.replicate MAX_BATCH_BYTES 'a')

/-- Demonstration entry whose estimated size alone exceeds the ceiling. -/
def bigEntry : FileEntry := ⟨"big.txt", "hashBig", bigContent⟩

/-- Demonstration global config holding a full auth state. -/
def wCfg : GlobalConfig :=
  ⟨some "http://localhost:8000/api", some "token123", some ⟨7, "Ada", "ada@example.com"⟩, some 3⟩

/-- Demonstration tree containing an unreadable directory next to a
readable file. -/
def unreadableDemo : List FsEntry :=
  [.dir "locked" none, .file "a.txt" 10 (some [104, 105])]

/-- Demonstration stand-in for the abstracted SHA-256 hex digest. -/
def wSha (s : String) : String := "sha256:" ++ s

/-- Demonstration stand-in for the abstracted UTF-8 decoding. -/
def wDecode (bs : List Nat) : String := String.mk (bs.map Char.ofNat)

/-- Demonstration axios error for an HTTP 413 response. -/
def w413Err : AxiosErr :=
  ⟨none, some 413, some "Payload Too Large", "Request failed with status code 413"⟩

/-- Demonstration server rejecting every payload of more than one entry
with HTTP 413, as axios reports it. -/
def w413Server (b : List FileEntry) : RawResult :=
  if 1 < b.length then .err w413Err else .ok

/-- Demonstration axios error for an HTTP 500 response. -/
def w500Err : AxiosErr :=
  ⟨none, some 500, some "boom", "Request failed with status code 500"⟩

/-- Demonstration server failing every payload of more than one entry
with HTTP 500. -/
def w500Server (b : List FileEntry) : RawResult :=
  if 1 < b.length then .err w500Err else .ok

/-- Demonstration axios error for an HTTP 401 response. -/
def w401Err : AxiosErr :=
  ⟨none, some 401, some "Unauthenticated.", "Request failed with status code 401"⟩

/-- Demonstration ignore predicate matching only the node_modules
directory. -/
def wIg (s : String) : Bool :=
  s == "node_modules" || s == "node_modules/"

/-- Demonstration tree holding one small readable file. -/
def wTree : List FsEntry := [.file "a.txt" 5 (some [104, 105])]

/-! ## Helper lemmas -/

theorem batchSize_nil : batchSize [] = 0 := rfl

theorem batchSize_append (l₁ l₂ : List FileEntry) :
    batchSize (l₁ ++ l₂) = batchSize l₁ + batchSize l₂ := by
  simp [batchSize]

theorem batchSize_singleton (e : FileEntry) : batchSize [e] = entrySize e := by
  simp [batchSize]

theorem buildBatchesAux_flatten (rest : List FileEntry) :
    ∀ (cur : List FileEntry) (size : Nat),
      (buildBatchesAux rest cur size).flatten = cur ++ rest := by
  induction rest with
  | nil =>
    intro cur size
    simp only [buildBatchesAux]
    split
    · next h => simp_all
    · simp
  | cons e rest ih =>
    intro cur size
    simp only [buildBatchesAux]
    split
    · simp [ih]
    · simp [ih]

theorem buildBatches_flatten (es : List FileEntry) :
    (buildBatches es).flatten = es := by
  simpa using buildBatchesAux_flatten es [] 0

theorem buildBatchesAux_ne_nil (rest : List FileEntry) :
    ∀ (cur : List FileEntry) (size : Nat) (b : List FileEntry),
      b ∈ buildBatchesAux rest cur size → b ≠ [] := by
  induction rest with
  | nil =>
    intro cur size b hb
    simp only [buildBatchesAux] at hb
    split at hb
    · simp at hb
    · next h =>
      rw [List.mem_singleton] at hb
      subst hb
      simpa [List.isEmpty_iff] using h
  | cons e rest ih =>
    intro cur size b hb
    simp only [buildBatchesAux] at hb
    split at hb
    · next hcond =>
      rcases List.mem_cons.mp hb with rfl | hb'
      · exact List.ne_nil_of_length_pos hcond.1
      · exact ih _ _ _ hb'
    · exact ih _ _ _ hb

/-- Every batch the loop emits is within the ceiling or is a lone
over-ceiling entry; established by the invariant that the running batch
is empty, a singleton, or within the ceiling. -/
theorem buildBatchesAux_good (rest : List FileEntry) :
    ∀ (cur : List FileEntry) (size : Nat),
      size = batchSize cur →
      (cur = [] ∨ (∃ e, cur = [e]) ∨ batchSize cur ≤ MAX_BATCH_BYTES) →
      ∀ b ∈ buildBatchesAux rest cur size,
        batchSize b ≤ MAX_BATCH_BYTES ∨ ∃ e, b = [e] ∧ MAX_BATCH_BYTES < entrySize e := by
  induction rest with
  | nil =>
    intro cur size hsz hinv b hb
    simp only [buildBatchesAux] at hb
    split at hb
    · simp at hb
    · next h =>
      rw [List.mem_singleton] at hb
      subst hb
      rcases hinv with rfl | ⟨e, rfl⟩ | hle
      · simp at h
      · rcases Nat.lt_or_ge MAX_BATCH_BYTES (entrySize e) with hgt | hle
        · exact Or.inr ⟨e, rfl, hgt⟩
        · exact Or.inl (by simpa [batchSize_singleton] using hle)
      · exact Or.inl hle
  | cons e rest ih =>
    intro cur size hsz hinv b hb
    simp only [buildBatchesAux] at hb
    split at hb
    · next hcond =>
      rcases List.mem_cons.mp hb with rfl | hb'
      · rcases hinv with rfl | ⟨x, rfl⟩ | hle
        · simp at hcond
        · rcases Nat.lt_or_ge MAX_BATCH_BYTES (entrySize x) with hgt | hle
          · exact Or.inr ⟨x, rfl, hgt⟩
          · exact Or.inl (by simpa [batchSize_singleton] using hle)
        · exact Or.inl hle
      · exact ih [e] (entrySize e) (by simp [batchSize_singleton]) (Or.inr (Or.inl ⟨e, rfl⟩)) b hb'
    · next hcond =>
      refine ih (cur ++ [e]) (size + entrySize e) ?_ ?_ b hb
      · simp [batchSize_append, batchSize_singleton, hsz]
      · rcases Decidable.not_and_iff_or_not.mp hcond with hlen | hsum
        · have : cur = [] := List.eq_nil_of_length_eq_zero (Nat.eq_zero_of_not_pos hlen)
          subst this
          exact Or.inr (Or.inl ⟨e, rfl⟩)
        · have hle : size + entrySize e ≤ MAX_BATCH_BYTES := Nat.le_of_not_lt hsum
          refine Or.inr (Or.inr ?_)
          rw [batchSize_append, batchSize_singleton, ← hsz]
          exact hle

/-- The utf8 byte size of n copies of the one-byte character a is n. -/
theorem utf8ByteSize_replicate_a (n : Nat) :
    (String.mk (List.replicate n 'a')).utf8ByteSize = n := by
  induction n with
  | zero => rfl
  | succ k ih =>
    simp only [String.utf8ByteSize_mk, List.replicate, String.utf8Len_cons] at ih ⊢
    rw [ih]
    show k + 1 = k + 1
    rfl

theorem entrySize_def (e : FileEntry) :
    entrySize e = e.content.utf8ByteSize + e.file_path.length + e.file_hash.length + 100 := rfl

/-- The demonstration entry bigEntry exceeds the batch ceiling on its own. -/
theorem bigEntry_oversized : MAX_BATCH_BYTES < entrySize bigEntry := by
  rw [entrySize_def]
  rw [show bigEntry.content = bigContent from rfl]
  rw [show bigContent.utf8ByteSize = MAX_BATCH_BYTES from utf8ByteSize_replicate_a MAX_BATCH_BYTES]
  omega

/-- Evaluation of String.trim on the empty string, needed because trim is
defined by well-founded recursion and does not reduce in the kernel. -/
theorem trim_empty : ("" : String).trim = "" := by
  show (Substring.trim (String.toSubstring "")).toString = ""
  rw [show String.toSubstring "" = ⟨"", ⟨0⟩, ⟨0⟩⟩ from rfl]
  rw [Substring.trim]
  have hW : Substring.takeWhileAux "" ⟨0⟩ Char.isWhitespace ⟨0⟩ = ⟨0⟩ := by
    rw [Substring.takeWhileAux]
    rw [dif_neg (by decide)]
  have hR : Substring.takeRightWhileAux "" ⟨0⟩ Char.isWhitespace ⟨0⟩ = ⟨0⟩ := by
    rw [Substring.takeRightWhileAux]
    rw [dif_neg (by decide)]
  simp only [hW, hR]
  rfl

/-- Evaluation of String.trim on a two-letter string with no whitespace. -/
theorem trim_hi : ("hi" : String).trim = "hi" := by
  show (Substring.trim (String.toSubstring "hi")).toString = "hi"
  rw [show String.toSubstring "hi" = ⟨"hi", ⟨0⟩, ⟨2⟩⟩ from rfl]
  rw [Substring.trim]
  have hW : Substring.takeWhileAux "hi" ⟨2⟩ Char.isWhitespace ⟨0⟩ = ⟨0⟩ := by
    rw [Substring.takeWhileAux]
    rw [dif_pos (by decide), if_neg (by decide)]
  have hR : Substring.takeRightWhileAux "hi" ⟨0⟩ Char.isWhitespace ⟨2⟩ = ⟨2⟩ := by
    rw [Substring.takeRightWhileAux]
    rw [dif_pos (by decide)]
    rw [if_pos (by decide)]
  simp only [hW, hR]
  rfl

/-! ## Claim theorems -/

/-- Claim C2: every batch produced by the batch-construction loop, except
possibly a batch consisting of a single entry whose own estimated size
exceeds the ceiling, has a total estimated size at or under
MAX_BATCH_BYTES (4 MiB). -/
theorem c2_batch_size_bound (es : List FileEntry) (b : List FileEntry)
    (hb : b ∈ buildBatches es) :
    batchSize b ≤ MAX_BATCH_BYTES ∨ ∃ e, b = [e] ∧ MAX_BATCH_BYTES < entrySize e :=
  buildBatchesAux_good es [] 0 rfl (Or.inl rfl) b hb

/-- Witness for claim C2 at a concrete input. -/
theorem c2_batch_size_bound_witness :
    [wEntryA, wEntryB] ∈ buildBatches [wEntryA, wEntryB] ∧
      (batchSize [wEntryA, wEntryB] ≤ MAX_BATCH_BYTES ∨
        ∃ e, [wEntryA, wEntryB] = [e] ∧ MAX_BATCH_BYTES < entrySize e) :=
  ⟨by decide, c2_batch_size_bound [wEntryA, wEntryB] [wEntryA, wEntryB] (by decide)⟩

/-- Claim C4: batch construction is an order-preserving partition — the
batches concatenate back to the input, and every batch is non-empty. -/
theorem c4_order_preserving_partition (es : List FileEntry) :
    (buildBatches es).flatten = es ∧ ∀ b ∈ buildBatches es, b ≠ [] :=
  ⟨buildBatches_flatten es,
   fun b hb => buildBatchesAux_ne_nil es [] 0 b hb⟩

/-- Witness for claim C4 at a concrete input. -/
theorem c4_order_preserving_partition_witness :
    (buildBatches [wEntryA, wEntryB]).flatten = [wEntryA, wEntryB] ∧
      [wEntryA, wEntryB] ≠ [] :=
  ⟨(c4_order_preserving_partition [wEntryA, wEntryB]).1,
   (c4_order_preserving_partition [wEntryA, wEntryB]).2 [wEntryA, wEntryB] (by decide)⟩

/-- Claim C3: an entry whose estimated size alone exceeds the ceiling ends
up as the sole element of its own batch and is never dropped. -/
theorem c3_oversized_entry_isolated (es : List FileEntry) (e : FileEntry)
    (hbig : MAX_BATCH_BYTES < entrySize e) (hmem : e ∈ es) :
    [e] ∈ buildBatches es ∧ ∀ b ∈ buildBatches es, e ∈ b → b = [e] := by
  have hkey : ∀ b ∈ buildBatches es, e ∈ b → b = [e] := by
    intro b hb heb
    rcases buildBatchesAux_good es [] 0 rfl (Or.inl rfl) b hb with hle | ⟨x, rfl, _⟩
    · exfalso
      have hsum : entrySize e ≤ batchSize b :=
        List.single_le_sum (fun _ _ => Nat.zero_le _) _ (List.mem_map_of_mem entrySize heb)
      exact absurd (Nat.lt_of_lt_of_le hbig (Nat.le_trans hsum hle)) (Nat.lt_irrefl _)
    · rcases List.mem_singleton.mp heb with rfl
      rfl
  refine ⟨?_, hkey⟩
  have hflat : e ∈ (buildBatches es).flatten := by
    rw [buildBatches_flatten es]
    exact hmem
  rcases List.mem_flatten.mp hflat with ⟨b, hb, heb⟩
  rw [← hkey b hb heb]
  exact hb

/-- Witness for claim C3 at a concrete input with a genuinely over-ceiling
entry. -/
theorem c3_oversized_entry_isolated_witness :
    MAX_BATCH_BYTES < entrySize bigEntry ∧ [bigEntry] ∈ buildBatches [bigEntry, wEntryA] :=
  ⟨bigEntry_oversized,
   (c3_oversized_entry_isolated [bigEntry, wEntryA] bigEntry bigEntry_oversized
     (List.mem_cons_self bigEntry [wEntryA])).1⟩

/-- A walk that returns a file list computes exactly the reference
filter: the not-ignored, size-admitted files under not-ignored
directories, in traversal order. -/
theorem walkList_ok_eq_specWalk (ig : String → Bool) :
    ∀ (pfx : String) (entries : List FsEntry) (recs : List FileRec),
      walkList ig pfx entries = Except.ok recs → recs = specWalk ig pfx entries := by
  intro pfx₀ entries₀
  induction pfx₀, entries₀ using walkList.induct ig with
  | case1 pfx =>
    intro recs h
    simp only [walkList, Except.ok.injEq] at h
    subst h
    simp [specWalk]
  | case2 pfx name size bytes rest rel hig ih =>
    intro recs h
    have hig' : ig (joinRel pfx name) = true := hig
    rw [walkList.eq_def] at h
    simp only [hig', if_true] at h
    simp only [specWalk, hig']
    simpa using ih recs h
  | case3 pfx name size bytes rest rel hig hsz fs hfs ih =>
    intro recs h
    have hig' : ig (joinRel pfx name) = false := by simpa using hig
    rw [walkList.eq_def] at h
    simp only [hig', hsz, hfs, Bool.false_eq_true, if_false, if_true, Except.ok.injEq] at h
    subst h
    simp only [specWalk]
    simp [hig', hsz, ih fs hfs]
  | case4 pfx name size bytes rest rel hig hsz e he ih =>
    intro recs h
    have hig' : ig (joinRel pfx name) = false := by simpa using hig
    rw [walkList.eq_def] at h
    simp only [hig', hsz, he, Bool.false_eq_true, if_false, if_true] at h
    exact absurd h (by simp)
  | case5 pfx name size bytes rest rel hig hsz ih =>
    intro recs h
    have hig' : ig (joinRel pfx name) = false := by simpa using hig
    rw [walkList.eq_def] at h
    simp only [hig', hsz, Bool.false_eq_true, if_false] at h
    simp only [specWalk]
    simp [hig', hsz, ih recs h]
  | case6 pfx name listing rest rel hig ih =>
    intro recs h
    have hig' : ig (joinRel pfx name) = true := hig
    rw [walkList.eq_def] at h
    simp only [hig', if_true] at h
    rw [specWalk.eq_def]
    simp only [hig']
    simpa using ih recs h
  | case7 pfx name listing rest rel hig higs ih =>
    intro recs h
    have hig' : ig (joinRel pfx name) = false := by simpa using hig
    have higs' : ig (joinRel pfx name ++ "/") = true := higs
    rw [walkList.eq_def] at h
    simp only [hig', higs', Bool.false_eq_true, if_false, if_true] at h
    rw [specWalk.eq_def]
    simp only [hig', higs']
    simpa using ih recs h
  | case8 pfx name rest rel hig higs =>
    intro recs h
    have hig' : ig (joinRel pfx name) = false := by simpa using hig
    have higs' : ig (joinRel pfx name ++ "/") = false := by simpa using higs
    rw [walkList.eq_def] at h
    simp only [hig', higs', Bool.false_eq_true, if_false] at h
    exact absurd h (by simp)
  | case9 pfx name rest rel hig higs children e hch ihc =>
    intro recs h
    have hig' : ig (joinRel pfx name) = false := by simpa using hig
    have higs' : ig (joinRel pfx name ++ "/") = false := by simpa using higs
    rw [walkList.eq_def] at h
    simp only [hig', higs', hch, Bool.false_eq_true, if_false] at h
    exact absurd h (by simp)
  | case10 pfx name rest rel hig higs children crecs hch e hrest ihc ihr =>
    intro recs h
    have hig' : ig (joinRel pfx name) = false := by simpa using hig
    have higs' : ig (joinRel pfx name ++ "/") = false := by simpa using higs
    rw [walkList.eq_def] at h
    simp only [hig', higs', hch, hrest, Bool.false_eq_true, if_false] at h
    exact absurd h (by simp)
  | case11 pfx name rest rel hig higs children crecs hch rrecs hrest ihc ihr =>
    intro recs h
    have hig' : ig (joinRel pfx name) = false := by simpa using hig
    have higs' : ig (joinRel pfx name ++ "/") = false := by simpa using higs
    rw [walkList.eq_def] at h
    simp only [hig', higs', hch, hrest, Bool.false_eq_true, if_false, Except.ok.injEq] at h
    subst h
    simp only [specWalk]
    simp [hig', higs', ihc crecs hch, ihr rrecs hrest]

/-- An ignored directory (bare path or trailing slash) is skipped
entirely: the walk is the walk of the remaining entries, whatever the
directory contains and whether or not its listing is readable. -/
theorem walkList_ignored_dir_skip (ig : String → Bool) (pfx name : String)
    (listing : Option (List FsEntry)) (rest : List FsEntry)
    (h : ig (joinRel pfx name) = true ∨ ig (joinRel pfx name ++ "/") = true) :
    walkList ig pfx (FsEntry.dir name listing :: rest) = walkList ig pfx rest := by
  rcases h with h | h
  · conv_lhs => rw [walkList.eq_def]
    simp [h]
  · conv_lhs => rw [walkList.eq_def]
    by_cases hrel : ig (joinRel pfx name) <;> simp [hrel, h]

/-- Claim C6 counterexample: on a tree whose first entry is an unreadable
directory (readdirSync throws) followed by a readable file, the walk
aborts with an error instead of skipping the unreadable subtree and
returning the readable file. -/
theorem c6_counterexample_unreadable_dir_aborts :
    walkList (fun _ => false) "" unreadableDemo = Except.error "locked" := by
  simp [walkList, unreadableDemo, joinRel]

/-- Claim C6 amended: a permission error while listing a directory that
the walk reaches (one the ignore predicate does not exclude) aborts the
whole scan — walkDirectory has no try/catch around readdirSync, so the
error propagates and no file list is returned. -/
theorem c6_unreadable_dir_aborts_scan (ig : String → Bool) (pfx : String)
    (entries : List FsEntry) (name : String)
    (hmem : FsEntry.dir name none ∈ entries)
    (hni : ig (joinRel pfx name) = false)
    (hnis : ig (joinRel pfx name ++ "/") = false) :
    ∃ msg, walkList ig pfx entries = Except.error msg := by
  induction entries with
  | nil => simp at hmem
  | cons e rest ih =>
    rcases List.mem_cons.mp hmem with rfl | hmem'
    · exact ⟨joinRel pfx name, by simp [walkList, hni, hnis]⟩
    · rcases e with ⟨n, sz, bs⟩ | ⟨n, listing⟩
      · rcases ih hmem' with ⟨m, hm⟩
        refine ⟨m, ?_⟩
        rw [walkList.eq_def]
        by_cases h1 : ig (joinRel pfx n) = true
        · simp [h1, hm]
        · by_cases h2 : sz ≤ MAX_FILE_SIZE
          · simp [h1, h2, hm]
          · simp [h1, h2, hm]
      · rcases ih hmem' with ⟨m, hm⟩
        by_cases h1 : ig (joinRel pfx n) = true
        · exact ⟨m, by rw [walkList.eq_def]; simp [h1, hm]⟩
        · by_cases h2 : ig (joinRel pfx n ++ "/") = true
          · exact ⟨m, by rw [walkList.eq_def]; simp [h1, h2, hm]⟩
          · cases listing with
            | none => exact ⟨joinRel pfx n, by rw [walkList.eq_def]; simp [h1, h2]⟩
            | some children =>
              cases hc : walkList ig (joinRel pfx n) children with
              | error e2 => exact ⟨e2, by rw [walkList.eq_def]; simp [h1, h2, hc]⟩
              | ok sub => exact ⟨m, by rw [walkList.eq_def]; simp [h1, h2, hc, hm]⟩

/-- Witness for the amended claim C6 at a concrete input. -/
theorem c6_unreadable_dir_aborts_scan_witness :
    ∃ msg, walkList (fun _ => false) "" unreadableDemo = Except.error msg :=
  c6_unreadable_dir_aborts_scan (fun _ => false) "" unreadableDemo "locked"
    (by simp [unreadableDemo]) rfl rfl

/-- Claim C7: a successful walk returns exactly the files whose relative
path is not ignored and whose size is at most 512 KiB under not-ignored
directories, and an ignored directory (tested bare and with a trailing
slash) is never descended into, contributing nothing to the result. -/
theorem c7_walk_filter_and_prune (ig : String → Bool) (pfx : String) :
    (∀ (entries : List FsEntry) (recs : List FileRec),
        walkList ig pfx entries = Except.ok recs → recs = specWalk ig pfx entries) ∧
    (∀ (name : String) (listing : Option (List FsEntry)) (rest : List FsEntry),
        (ig (joinRel pfx name) = true ∨ ig (joinRel pfx name ++ "/") = true) →
        walkList ig pfx (FsEntry.dir name listing :: rest) = walkList ig pfx rest) :=
  ⟨fun entries recs h => walkList_ok_eq_specWalk ig pfx entries recs h,
   fun name listing rest h => walkList_ignored_dir_skip ig pfx name listing rest h⟩

/-- Witness for claim C7 at a concrete input. -/
theorem c7_walk_filter_and_prune_witness :
    [(⟨"a.txt", 5, some [104, 105]⟩ : FileRec)] = specWalk wIg "" wTree ∧
    walkList wIg "" (FsEntry.dir "node_modules" none :: wTree) = walkList wIg "" wTree :=
  ⟨(c7_walk_filter_and_prune wIg "").1 wTree [⟨"a.txt", 5, some [104, 105]⟩]
      (by simp [walkList, wTree, wIg, joinRel, MAX_FILE_SIZE]),
   (c7_walk_filter_and_prune wIg "").2 "node_modules" none wTree (Or.inl (by decide))⟩

/-- Claim C5: the admission filter excludes a file whose first 8 KiB of
bytes contains a null byte, excludes a file whose decoded content trims
to the empty string, and otherwise produces a FileEntry whose hash field
is the (abstracted) SHA-256 hex digest of the decoded content and whose
path field is the file's root-relative path carried from the walk. -/
theorem c5_admission_filter (sha256hex : String → String) (decodeUtf8 : List Nat → String)
    (f : FileRec) (rest : List FileRec) (buf : List Nat) (hbuf : f.bytes = some buf) :
    ((buf.take 8192).contains 0 = true →
        admitAll sha256hex decodeUtf8 (f :: rest) = admitAll sha256hex decodeUtf8 rest) ∧
    ((buf.take 8192).contains 0 = false → (decodeUtf8 buf).trim = "" →
        admitAll sha256hex decodeUtf8 (f :: rest) = admitAll sha256hex decodeUtf8 rest) ∧
    ((buf.take 8192).contains 0 = false → (decodeUtf8 buf).trim ≠ "" →
        admitAll sha256hex decodeUtf8 (f :: rest) =
          ⟨f.rel, sha256hex (decodeUtf8 buf), decodeUtf8 buf⟩ ::
            admitAll sha256hex decodeUtf8 rest) := by
  refine ⟨?_, ?_, ?_⟩
  · intro h1
    simp only [admitAll, hbuf, h1, if_true]
  · intro h1 h2
    simp only [admitAll, hbuf, h1, h2, Bool.false_eq_true, if_false, if_true]
  · intro h1 h2
    simp only [admitAll, hbuf, h1, Bool.false_eq_true, if_false]
    rw [if_neg h2]

/-- Witness for claim C5 at concrete inputs covering the three branches. -/
theorem c5_admission_filter_witness :
    admitAll wSha wDecode [⟨"b.bin", 2, some [0, 65]⟩] = [] ∧
    admitAll wSha wDecode [⟨"empty.txt", 0, some []⟩] = [] ∧
    admitAll wSha wDecode [⟨"a.txt", 2, some [104, 105]⟩] =
      [⟨"a.txt", wSha (wDecode [104, 105]), wDecode [104, 105]⟩] := by
  refine ⟨?_, ?_, ?_⟩
  · have h := (c5_admission_filter wSha wDecode ⟨"b.bin", 2, some [0, 65]⟩ [] [0, 65]
      rfl).1 (by decide)
    exact h.trans rfl
  · have h := (c5_admission_filter wSha wDecode ⟨"empty.txt", 0, some []⟩ [] []
      rfl).2.1 (by decide) trim_empty
    exact h.trans rfl
  · have h := (c5_admission_filter wSha wDecode ⟨"a.txt", 2, some [104, 105]⟩ [] [104, 105]
      rfl).2.2 (by decide)
      (by rw [show wDecode [104, 105] = "hi" from by decide, trim_hi]; decide)
    exact h.trans rfl

/-- Claim C9: the walk-plus-admission pipeline is deterministic in its
filesystem input.  The embedding is a pure function of the tree (and of
the abstracted hash and decoder), so two runs over the same unchanged
tree return identical ordered FileEntry lists — same paths, same hashes,
same contents, same order. -/
theorem c9_scan_deterministic (ig : String → Bool) (sha256hex : String → String)
    (decodeUtf8 : List Nat → String) (t₁ t₂ : List FsEntry) (h : t₁ = t₂) :
    scanPipeline ig sha256hex decodeUtf8 t₁ = scanPipeline ig sha256hex decodeUtf8 t₂ := by
  rw [h]

/-- Witness for claim C9 at a concrete input. -/
theorem c9_scan_deterministic_witness :
    scanPipeline wIg wSha wDecode wTree = scanPipeline wIg wSha wDecode wTree :=
  c9_scan_deterministic wIg wSha wDecode wTree wTree rfl

/-- Claim C8: when the submission of some batch b fails with any error
other than a 413 on a multi-entry batch, the run aborts: every earlier
batch was POSTed exactly once, b was POSTed once, no later batch is ever
POSTed, and the error is surfaced.  (In this code every submission
failure takes this path; the 413 premise is the claim's wording.) -/
theorem c8_fatal_error_aborts_run (server : List FileEntry → RawResult) (cfg : GlobalConfig)
    (pre post : List (List FileEntry)) (b : List FileEntry) (e : AxiosErr)
    (hb : server b = RawResult.err e)
    (hnot : ¬(e.respStatus = some 413 ∧ 1 < b.length)) :
    (∀ p ∈ pre, server p = RawResult.ok) →
    runBatches server cfg (pre ++ b :: post) =
      (pre ++ [b], (interceptErr e cfg).1, some (interceptErr e cfg).2) := by
  induction pre with
  | nil =>
    intro _
    simp only [List.nil_append]
    simp [runBatches, submitWithSplit, hb, thrownResponseStatus]
  | cons p pre ih =>
    intro hpre
    have hp : server p = RawResult.ok := hpre p (List.mem_cons_self p pre)
    have hrest := ih (fun q hq => hpre q (List.mem_cons_of_mem p hq))
    simp only [List.cons_append]
    simp [runBatches, submitWithSplit, hp, hrest]

/-- Witness for claim C8 at a concrete input: the first batch succeeds,
the second fails with HTTP 500, the third is never submitted. -/
theorem c8_fatal_error_aborts_run_witness :
    runBatches w500Server wCfg ([[wEntryA]] ++ [wEntryA, wEntryB] :: [[wEntryB]]) =
      ([[wEntryA]] ++ [[wEntryA, wEntryB]],
        (interceptErr w500Err wCfg).1, some (interceptErr w500Err wCfg).2) :=
  c8_fatal_error_aborts_run w500Server wCfg [[wEntryA]] [[wEntryB]] [wEntryA, wEntryB]
    w500Err (by decide) (by decide) (by decide)

/-- Claim C1 (behaviour of the code at the failing input): submitting a
two-entry batch that the server rejects with HTTP 413 — while the server
accepts every single-entry payload — produces exactly one POST of the
full batch and a propagated fatal ApiError; the two halves are never
submitted.  The split branch compares err?.response?.status with 413,
but the ApiError thrown by the api client carries its status directly
and has no response property, so the comparison never succeeds. -/
theorem c1_413_split_never_fires :
    runBatches w413Server wCfg [[wEntryA, wEntryB]] =
      ([[wEntryA, wEntryB]], wCfg,
        some (ThrownError.apiError "Payload Too Large" 413)) := by
  decide

/-- Claim C10: a 401 response makes the interceptor clear the persisted
auth state (token, user, teamId all deleted; clearAuth of
src/lib/config.ts) and throw the session-expired ApiError; a connection
failure or any non-401 status leaves the persisted config unchanged. -/
theorem c10_401_clears_auth_otherwise_untouched (e : AxiosErr) (cfg : GlobalConfig) :
    ((e.code = some "ECONNREFUSED" ∨ e.code = some "ENOTFOUND") →
        (interceptErr e cfg).1 = cfg) ∧
    (¬(e.code = some "ECONNREFUSED" ∨ e.code = some "ENOTFOUND") →
      e.respStatus = some 401 →
        interceptErr e cfg = (clearAuth cfg, ThrownError.apiError sessionExpiredMessage 401) ∧
        (interceptErr e cfg).1.token = none ∧
        (interceptErr e cfg).1.user = none ∧
        (interceptErr e cfg).1.teamId = none) ∧
    (¬(e.code = some "ECONNREFUSED" ∨ e.code = some "ENOTFOUND") →
      e.respStatus ≠ some 401 → (interceptErr e cfg).1 = cfg) := by
  refine ⟨?_, ?_, ?_⟩
  · intro hconn
    simp [interceptErr, hconn]
  · intro hconn h401
    have heq : interceptErr e cfg = (clearAuth cfg, .apiError sessionExpiredMessage 401) := by
      simp [interceptErr, hconn, h401]
    refine ⟨heq, ?_, ?_, ?_⟩ <;> rw [heq] <;> simp [clearAuth]
  · intro hconn h401
    by_cases h422 : e.respStatus = some 422 <;>
      simp [interceptErr, hconn, h401, h422]

/-- Witness for claim C10 at concrete inputs: a 401 clears the stored
auth, a 500 leaves the config untouched. -/
theorem c10_401_clears_auth_witness :
    (interceptErr w401Err wCfg).1 = clearAuth wCfg ∧ (interceptErr w500Err wCfg).1 = wCfg :=
  ⟨by rw [((c10_401_clears_auth_otherwise_untouched w401Err wCfg).2.1 (by decide) rfl).1],
   (c10_401_clears_auth_otherwise_untouched w500Err wCfg).2.2 (by decide) (by decide)⟩

end Memo8
